import Mathlib

/-!
Shallow embedding of the xdgdir Go library (`src/app.go` plus the package-level
base-directory resolvers it calls), specialised to Unix-style paths:
the path separator is the character SLASH and the path-list separator is COLON.

Environment reads follow Go `os.Getenv` semantics: an unset variable is
indistinguishable from a variable set to the empty string, so the environment
is modelled as a total function `String → String`.
-/

namespace Xdgdir

/-- The environment, as seen through Go `os.Getenv`. -/
def Env : Type := String → String

/-- Model of Go `os.Getenv`. -/
def getenv (e : Env) (k : String) : String := e k

/-- The platform path-list separator (`os.PathListSeparator`), colon on Unix. -/
def pathListSeparator : Char := ':'

/-- Split a character list at every occurrence of `c`, keeping empty pieces,
exactly like Go `strings.Split` with a one-character separator. -/
def splitOnChar (c : Char) : List Char → List (List Char)
  | [] => [[]]
  | x :: xs =>
    if x = c then [] :: splitOnChar c xs
    else
      match splitOnChar c xs with
      | [] => [[x]]
      | h :: t => (x :: h) :: t

namespace strings

/-- Model of Go `strings.Split(s, string(sep))` for a one-character separator. -/
def Split (s : String) (sep : Char) : List String :=
  (splitOnChar sep s.data).map (fun l => ⟨l⟩)

end strings

/-- One step of the lexical cleaning loop of Go `filepath.Clean`: push a path
component onto the (reversed) stack of output components. -/
def pushComp (rooted : Bool) (stack : List (List Char)) (c : List Char) : List (List Char) :=
  if c = [] ∨ c = ['.'] then stack
  else if c = ['.', '.'] then
    match stack with
    | [] => if rooted then [] else [['.', '.']]
    | t :: rest => if t = ['.', '.'] then c :: t :: rest else rest
  else c :: stack

/-- Join path components with SLASH. -/
def joinComps : List (List Char) → List Char
  | [] => []
  | [c] => c
  | c :: cs => c ++ '/' :: joinComps cs

/-- Render the cleaned component stack back into a character list. -/
def renderComps (rooted : Bool) (stack : List (List Char)) : List Char :=
  match stack.reverse with
  | [] => if rooted then ['/'] else ['.']
  | comps => (if rooted then ['/'] else []) ++ joinComps comps

/-- Whether a character list denotes a rooted (absolute) path. -/
def isRooted : List Char → Bool
  | '/' :: _ => true
  | _ => false

/-- Go `filepath.Clean` on character lists (Unix rules). -/
def cleanChars (l : List Char) : List Char :=
  if l = [] then ['.']
  else
    renderComps (isRooted l) (((splitOnChar '/' l).foldl (pushComp (isRooted l)) []))

namespace filepath

/-- Model of Go `filepath.Clean` (Unix). -/
def Clean (s : String) : String := ⟨cleanChars s.data⟩

/-- Model of Go `filepath.Join(a, b)` (Unix): skip leading empty elements,
join the rest with SLASH and clean the result; all-empty input gives `""`. -/
def Join (a b : String) : String :=
  if a = "" then
    if b = "" then "" else Clean b
  else Clean (a ++ "/" ++ b)

/-- Go `filepath.Base` on character lists (Unix). -/
def baseChars (l : List Char) : List Char :=
  if l = [] then ['.']
  else
    let r := l.reverse.dropWhile (fun c => c = '/')
    if r = [] then ['/']
    else (r.takeWhile (fun c => c ≠ '/')).reverse

/-- Model of Go `filepath.Base` (Unix). -/
def Base (s : String) : String := ⟨baseChars s.data⟩

end filepath

/-- The failures the library can return. -/
inductive GoErr : Type
  | environmentNotFound
  | fileNotFound (name : String)
deriving DecidableEq, Repr

/-- The message string carried by each error value. -/
def GoErr.message : GoErr → String
  | .environmentNotFound => "environment variables are not found"
  | .fileNotFound name => "file " ++ name ++ " is not found"

/-- A Go `(string, error)` return value: `none` in the second slot means `nil`. -/
abbrev GoStr : Type := String × Option GoErr

/-- Modelled from the spec: the shared precedence chain of the package-level
base resolvers, which are code of this repository not under `src/`.
"if <xdgVar> is set and non-empty, return it. Else if HOME is set, return
HOME joined with <sub>. Else if USERPROFILE is set, return USERPROFILE
joined with <sub>. Else fail with EnvironmentNotFound." Under Go `Getenv`,
set means non-empty. -/
def baseDir (env : Env) (xdgVar sub : String) : GoStr :=
  if getenv env xdgVar ≠ "" then (getenv env xdgVar, none)
  else if getenv env "HOME" ≠ "" then (filepath.Join (getenv env "HOME") sub, none)
  else if getenv env "USERPROFILE" ≠ "" then
    (filepath.Join (getenv env "USERPROFILE") sub, none)
  else ("", some .environmentNotFound)

/-- Modelled from the spec: the package-level Config base resolver
(XDG_CONFIG_HOME, falling back to the home directory joined with ".config"). -/
def ConfigDir (env : Env) : GoStr := baseDir env "XDG_CONFIG_HOME" ".config"

/-- Modelled from the spec: the package-level Data base resolver
(XDG_DATA_HOME, falling back to the home directory joined with ".local/share"). -/
def DataDir (env : Env) : GoStr := baseDir env "XDG_DATA_HOME" ".local/share"

/-- Modelled from the spec: the package-level Cache base resolver
(XDG_CACHE_HOME, falling back to the home directory joined with ".cache"). -/
def CacheDir (env : Env) : GoStr := baseDir env "XDG_CACHE_HOME" ".cache"

/-- Modelled from the spec: the package-level Runtime base resolver.
"if XDG_RUNTIME_DIR is set and non-empty, return it. Else return the
process-wide temporary-directory path." The temp path is an external input,
passed as `tmpDir`. This resolver is total: it cannot fail. -/
def RuntimeDir (env : Env) (tmpDir : String) : String :=
  if getenv env "XDG_RUNTIME_DIR" ≠ "" then getenv env "XDG_RUNTIME_DIR" else tmpDir

/-- `App` is application name in XDG Base directories (src/app.go). -/
structure App : Type where
  Name : String
deriving DecidableEq, Repr

/-- `NewApp` returns new app object that has given name (src/app.go). -/
def NewApp (name : String) : App := ⟨name⟩

/-- `joinedPath` from src/app.go: on error return `("", err)`, otherwise join
the resolved directory with `name`. The resolver argument is passed as its
already-computed result, which is equivalent since resolvers are pure. -/
def joinedPath (name : String) (r : GoStr) : GoStr :=
  match r with
  | (_, some e) => ("", some e)
  | (dir, none) => (filepath.Join dir name, none)

/-- `App.ConfigDir` from src/app.go. -/
def App.ConfigDir (a : App) (env : Env) : GoStr := joinedPath a.Name (Xdgdir.ConfigDir env)

/-- `App.ConfigFile` from src/app.go. -/
def App.ConfigFile (a : App) (env : Env) (name : String) : GoStr :=
  joinedPath name (a.ConfigDir env)

/-- `App.DataDir` from src/app.go. -/
def App.DataDir (a : App) (env : Env) : GoStr := joinedPath a.Name (Xdgdir.DataDir env)

/-- `App.DataFile` from src/app.go. -/
def App.DataFile (a : App) (env : Env) (name : String) : GoStr :=
  joinedPath name (a.DataDir env)

/-- `App.CacheDir` from src/app.go. -/
def App.CacheDir (a : App) (env : Env) : GoStr := joinedPath a.Name (Xdgdir.CacheDir env)

/-- `App.CacheFile` from src/app.go. -/
def App.CacheFile (a : App) (env : Env) (name : String) : GoStr :=
  joinedPath name (a.CacheDir env)

/-- `App.RuntimeDir` from src/app.go: joins the package-level runtime base
with the application name; returns a bare string (no error). -/
def App.RuntimeDir (a : App) (env : Env) (tmpDir : String) : String :=
  filepath.Join (Xdgdir.RuntimeDir env tmpDir) a.Name

/-- `App.RuntimeFile` from src/app.go. -/
def App.RuntimeFile (a : App) (env : Env) (tmpDir : String) (name : String) : String :=
  filepath.Join (a.RuntimeDir env tmpDir) name

/-- The filesystem as seen by `findFile`: `statOk` is whether `os.Stat`
succeeds, `readDir` is `ioutil.ReadDir` (`none` models a listing error;
entry strings are the `Name()` values of the listed files). -/
structure FS : Type where
  statOk : String → Bool
  readDir : String → Option (List String)

/-- `App.dirsForSearch` from src/app.go: the primary directory first, then,
for every segment of the path-list variable (split like `strings.Split`),
that segment joined with the application name. -/
def App.dirsForSearch (a : App) (env : Env) (first envKey : String) : List String :=
  first :: (strings.Split (getenv env envKey) pathListSeparator).map
    (fun dir => filepath.Join dir a.Name)

/-- `findFile` from src/app.go: scan the directories in order, skipping empty
entries, stat failures and listing failures; inside a directory take the first
entry whose `filepath.Base` equals `name`; fall through to a NotFound error. -/
def findFile (fs : FS) (dirs : List String) (name : String) : GoStr :=
  match dirs with
  | [] => ("", some (.fileNotFound name))
  | dir :: rest =>
    if dir = "" then findFile fs rest name
    else if fs.statOk dir = false then findFile fs rest name
    else
      match fs.readDir dir with
      | none => findFile fs rest name
      | some entries =>
        match entries.find? (fun f => filepath.Base f == name) with
        | some f => (filepath.Join dir f, none)
        | none => findFile fs rest name

/-- `App.FindConfigFile` from src/app.go: the primary config directory
(its resolution error discarded), then XDG_CONFIG_DIRS. -/
def App.FindConfigFile (a : App) (env : Env) (fs : FS) (name : String) : GoStr :=
  let d := (a.ConfigDir env).1
  let dirs := a.dirsForSearch env d "XDG_CONFIG_DIRS"
  match findFile fs dirs name with
  | (_, some e) => ("", some e)
  | (f, none) => (f, none)

/-- `App.FindDataFile` from src/app.go: the primary data directory
(its resolution error discarded), then XDG_DATA_DIRS. -/
def App.FindDataFile (a : App) (env : Env) (fs : FS) (name : String) : GoStr :=
  let d := (a.DataDir env).1
  let dirs := a.dirsForSearch env d "XDG_DATA_DIRS"
  match findFile fs dirs name with
  | (_, some e) => ("", some e)
  | (f, none) => (f, none)

/-- The fallible categories of the library. -/
inductive Category : Type
  | config
  | data
  | cache
deriving DecidableEq, Repr

/-- The primary override variable of each fallible category. -/
def Category.xdgVar : Category → String
  | .config => "XDG_CONFIG_HOME"
  | .data => "XDG_DATA_HOME"
  | .cache => "XDG_CACHE_HOME"

/-- The conventional home subpath of each fallible category. -/
def Category.sub : Category → String
  | .config => ".config"
  | .data => ".local/share"
  | .cache => ".cache"

/-- The per-category directory accessor of the facade. -/
def App.dirFor (a : App) (c : Category) (env : Env) : GoStr :=
  match c with
  | .config => a.ConfigDir env
  | .data => a.DataDir env
  | .cache => a.CacheDir env

/-- The per-category file accessor of the facade. -/
def App.fileFor (a : App) (c : Category) (env : Env) (name : String) : GoStr :=
  match c with
  | .config => a.ConfigFile env name
  | .data => a.DataFile env name
  | .cache => a.CacheFile env name

/-- The search-dirs variable of a searchable category. -/
def Category.searchVar : Category → String
  | .config => "XDG_CONFIG_DIRS"
  | .data => "XDG_DATA_DIRS"
  | .cache => ""

/-- A string that is a single ordinary path component: nonempty, not a dot
directory, free of the separator. Real directory entries are of this shape. -/
def simpleName (s : String) : Prop :=
  s.data ≠ [] ∧ s.data ≠ ['.'] ∧ s.data ≠ ['.', '.'] ∧ '/' ∉ s.data

instance (s : String) : Decidable (simpleName s) := by
  unfold simpleName; infer_instance

/-- A directory entry of the scan that yields no match: empty string, stat
failure, listing failure, or no listed entry whose base name equals `name`. -/
def dirMisses (fs : FS) (name dir : String) : Bool :=
  dir == "" || !fs.statOk dir ||
    match fs.readDir dir with
    | none => true
    | some es => (es.find? (fun f => filepath.Base f == name)).isNone

/-- The Search Directory List as the claim words it: only the non-empty
segments of the search-dirs variable contribute entries. Written from the
claim, to be compared against `App.dirsForSearch` from the source. -/
def dirsForSearchClaim (a : App) (env : Env) (first envKey : String) : List String :=
  first :: ((strings.Split (getenv env envKey) pathListSeparator).filter
    (fun s => s ≠ "")).map (fun dir => filepath.Join dir a.Name)

/-- An environment with every variable unset. -/
def envEmpty : Env := fun _ => ""

/-- An environment with only XDG_CONFIG_HOME set. -/
def envXdgConfig : Env := fun k => if k = "XDG_CONFIG_HOME" then "/x" else ""

/-- An environment with only HOME set. -/
def envHome : Env := fun k => if k = "HOME" then "/h" else ""

/-- An environment whose XDG_CONFIG_DIRS is a single path-list separator. -/
def envColon : Env := fun k => if k = "XDG_CONFIG_DIRS" then ":" else ""

/-- An environment with only XDG_RUNTIME_DIR set. -/
def envRun : Env := fun k => if k = "XDG_RUNTIME_DIR" then "/run" else ""

/-- A filesystem with a single listable directory "/a". -/
def fsOne : FS :=
  ⟨fun d => d == "/a", fun d => if d == "/a" then some ["x", "settings"] else none⟩

/-- A filesystem with a single listable directory "/h/.config/app". -/
def fsHome : FS :=
  ⟨fun d => d == "/h/.config/app",
   fun d => if d == "/h/.config/app" then some ["settings"] else none⟩

/-! ### Lemmas about the path primitives -/

theorem splitOnChar_ne_nil (c : Char) (l : List Char) : splitOnChar c l ≠ [] := by
  induction l with
  | nil => simp [splitOnChar]
  | cons x xs ih =>
    by_cases h : x = c
    · simp [splitOnChar, h]
    · simp only [splitOnChar, if_neg h]
      cases hs : splitOnChar c xs with
      | nil => simp
      | cons a b => simp

theorem splitOnChar_no_sep (c : Char) (l : List Char) (h : c ∉ l) :
    splitOnChar c l = [l] := by
  induction l with
  | nil => rfl
  | cons x xs ih =>
    simp only [List.mem_cons, not_or] at h
    have hx : ¬ x = c := fun hc => h.1 hc.symm
    simp only [splitOnChar, if_neg hx, ih h.2]

theorem splitOnChar_cons_pos (c x : Char) (xs : List Char) (h : x = c) :
    splitOnChar c (x :: xs) = [] :: splitOnChar c xs := by
  simp only [splitOnChar, if_pos h]

theorem splitOnChar_cons_neg (c x : Char) (xs : List Char) (h : ¬ x = c)
    (a : List Char) (b : List (List Char)) (hs : splitOnChar c xs = a :: b) :
    splitOnChar c (x :: xs) = (x :: a) :: b := by
  simp only [splitOnChar, if_neg h, hs]

theorem splitOnChar_append (c : Char) (l₁ l₂ : List Char) :
    splitOnChar c (l₁ ++ c :: l₂) = splitOnChar c l₁ ++ splitOnChar c l₂ := by
  induction l₁ with
  | nil =>
    rw [List.nil_append, splitOnChar_cons_pos c c l₂ rfl]
    rfl
  | cons x xs ih =>
    rw [List.cons_append]
    by_cases h : x = c
    · rw [splitOnChar_cons_pos c x _ h, ih, splitOnChar_cons_pos c x xs h,
        List.cons_append]
    · cases hs : splitOnChar c xs with
      | nil => exact absurd hs (splitOnChar_ne_nil c xs)
      | cons a b =>
        have hs2 : splitOnChar c (xs ++ c :: l₂) = a :: (b ++ splitOnChar c l₂) := by
          rw [ih, hs, List.cons_append]
        rw [splitOnChar_cons_neg c x _ h a (b ++ splitOnChar c l₂) hs2,
          splitOnChar_cons_neg c x xs h a b hs, List.cons_append]

theorem joinComps_cons_ne_nil (x : List Char) (xs : List (List Char)) (hx : x ≠ []) :
    joinComps (x :: xs) ≠ [] := by
  cases xs with
  | nil => simpa [joinComps] using hx
  | cons y ys => simp [joinComps]

theorem joinComps_cons₂ (a b : List Char) (bs : List (List Char)) :
    joinComps (a :: b :: bs) = a ++ '/' :: joinComps (b :: bs) := rfl

theorem joinComps_append_last (xs : List (List Char)) (y : List Char) (h : xs ≠ []) :
    joinComps (xs ++ [y]) = joinComps xs ++ '/' :: y := by
  induction xs with
  | nil => exact absurd rfl h
  | cons a as ih =>
    cases as with
    | nil => simp [joinComps]
    | cons b bs =>
      have h2 := ih (by simp)
      calc joinComps ((a :: b :: bs) ++ [y])
          = a ++ '/' :: joinComps ((b :: bs) ++ [y]) := joinComps_cons₂ a b (bs ++ [y])
        _ = a ++ '/' :: (joinComps (b :: bs) ++ '/' :: y) := by rw [h2]
        _ = (a ++ '/' :: joinComps (b :: bs)) ++ '/' :: y := by simp
        _ = joinComps (a :: b :: bs) ++ '/' :: y := by rw [joinComps_cons₂]

theorem mem_pushComp (rooted : Bool) (stack : List (List Char)) (c x : List Char)
    (hx : x ∈ pushComp rooted stack c) :
    (x = c ∧ ¬ (c = [] ∨ c = ['.'])) ∨ x ∈ stack := by
  unfold pushComp at hx
  by_cases h1 : c = [] ∨ c = ['.']
  · rw [if_pos h1] at hx
    exact Or.inr hx
  · rw [if_neg h1] at hx
    by_cases h2 : c = ['.', '.']
    · rw [if_pos h2] at hx
      cases stack with
      | nil =>
        cases rooted with
        | true => simp at hx
        | false =>
          simp at hx
          exact Or.inl ⟨hx.trans h2.symm, h1⟩
      | cons t rest =>
        have hx2 : x ∈ if t = ['.', '.'] then c :: t :: rest else rest := hx
        by_cases h3 : t = ['.', '.']
        · rw [if_pos h3] at hx2
          rcases List.mem_cons.mp hx2 with h4 | h5
          · exact Or.inl ⟨h4, h1⟩
          · exact Or.inr h5
        · rw [if_neg h3] at hx2
          exact Or.inr (List.mem_cons.mpr (Or.inr hx2))
    · rw [if_neg h2] at hx
      rcases List.mem_cons.mp hx with h4 | h5
      · exact Or.inl ⟨h4, h1⟩
      · exact Or.inr h5

theorem pushComp_good (rooted : Bool) (stack : List (List Char)) (c : List Char)
    (h : ∀ x ∈ stack, x ≠ []) : ∀ x ∈ pushComp rooted stack c, x ≠ [] := by
  intro x hx
  rcases mem_pushComp rooted stack c x hx with ⟨h4, h5⟩ | h6
  · intro hc
    exact h5 (Or.inl (h4.symm.trans hc))
  · exact h x h6

theorem foldl_pushComp_good (rooted : Bool) (comps : List (List Char))
    (stack : List (List Char)) (h : ∀ x ∈ stack, x ≠ []) :
    ∀ x ∈ comps.foldl (pushComp rooted) stack, x ≠ [] := by
  induction comps generalizing stack with
  | nil => exact h
  | cons c cs ih => exact ih _ (pushComp_good rooted stack c h)

theorem renderComps_ne_nil (rooted : Bool) (stack : List (List Char))
    (h : ∀ x ∈ stack, x ≠ []) : renderComps rooted stack ≠ [] := by
  unfold renderComps
  cases hs : stack.reverse with
  | nil => cases rooted <;> simp
  | cons a as =>
    have ha : a ≠ [] := by
      apply h
      have : a ∈ stack.reverse := by simp [hs]
      simpa using this
    have hj := joinComps_cons_ne_nil a as ha
    cases rooted <;> simp_all

theorem cleanChars_ne_nil (l : List Char) : cleanChars l ≠ [] := by
  unfold cleanChars
  split
  · simp
  · exact renderComps_ne_nil _ _ (foldl_pushComp_good _ _ [] (by simp))

theorem clean_ne_empty (s : String) : filepath.Clean s ≠ "" := by
  unfold filepath.Clean
  intro h
  have : cleanChars s.data = [] := by
    have := congrArg String.data h
    simpa using this
  exact cleanChars_ne_nil s.data this

theorem isRooted_of_head (x : Char) (xs : List Char) (hx : x ≠ '/') :
    isRooted (x :: xs) = false := by
  unfold isRooted
  split
  · simp_all
  · rfl

theorem cleanChars_simple (l : List Char) (h0 : l ≠ []) (h1 : l ≠ ['.'])
    (h2 : l ≠ ['.', '.']) (h3 : '/' ∉ l) : cleanChars l = l := by
  have hroot : isRooted l = false := by
    cases l with
    | nil => exact absurd rfl h0
    | cons x xs =>
      have : x ≠ '/' := fun hc => h3 (by simp [hc])
      exact isRooted_of_head x xs this
  unfold cleanChars
  rw [if_neg h0, hroot, splitOnChar_no_sep '/' l h3]
  simp only [List.foldl_cons, List.foldl_nil]
  rw [pushComp, if_neg (by simp [h0, h1]), if_neg h2]
  simp [renderComps, joinComps]

theorem clean_simple (s : String) (h : simpleName s) : filepath.Clean s = s := by
  obtain ⟨h0, h1, h2, h3⟩ := h
  unfold filepath.Clean
  rw [cleanChars_simple s.data h0 h1 h2 h3]

theorem takeWhile_all_append (p : Char → Bool) (xs : List Char) (y : Char)
    (ys : List Char) (hxs : ∀ x ∈ xs, p x = true) (hy : p y = false) :
    (xs ++ y :: ys).takeWhile p = xs := by
  induction xs with
  | nil => simp [List.takeWhile, hy]
  | cons a as ih =>
    have ha : p a = true := hxs a (by simp)
    have h2 := ih (fun x hx => hxs x (by simp [hx]))
    calc ((a :: as) ++ y :: ys).takeWhile p
        = a :: (as ++ y :: ys).takeWhile p := by
          simp [List.takeWhile_cons, ha]
      _ = a :: as := by rw [h2]

theorem takeWhile_all (p : Char → Bool) (xs : List Char)
    (hxs : ∀ x ∈ xs, p x = true) : xs.takeWhile p = xs := by
  induction xs with
  | nil => rfl
  | cons a as ih =>
    have ha : p a = true := hxs a (by simp)
    have h2 := ih (fun x hx => hxs x (by simp [hx]))
    calc (a :: as).takeWhile p = a :: as.takeWhile p := by
          simp [List.takeWhile_cons, ha]
      _ = a :: as := by rw [h2]

theorem dropWhile_cons_of_neg (p : Char → Bool) (a : Char) (as : List Char)
    (ha : p a = false) : (a :: as).dropWhile p = a :: as := by
  rw [List.dropWhile_cons, ha]
  simp

theorem baseChars_append_simple (pre f : List Char) (h0 : f ≠ []) (h3 : '/' ∉ f) :
    filepath.baseChars (pre ++ '/' :: f) = f := by
  cases hf : f.reverse with
  | nil => simp_all
  | cons a as =>
    have haf : a ∈ f := by
      have : a ∈ f.reverse := by simp [hf]
      simpa using this
    have ha : ¬ a = '/' := fun hc => h3 (hc ▸ haf)
    unfold filepath.baseChars
    rw [if_neg (by simp)]
    have hrev : (pre ++ '/' :: f).reverse = (a :: as) ++ '/' :: pre.reverse := by
      rw [List.reverse_append, List.reverse_cons, ← hf]
      simp
    rw [hrev, List.cons_append,
      dropWhile_cons_of_neg _ a _ (by simpa using ha), ← List.cons_append]
    rw [if_neg (by simp)]
    have hall : ∀ x ∈ (a :: as), (fun c => decide (c ≠ '/')) x = true := by
      intro x hx
      have hxf : x ∈ f := by
        have : x ∈ f.reverse := by rw [hf]; exact hx
        simpa using this
      simp only [decide_eq_true_eq]
      exact fun hc => h3 (hc ▸ hxf)
    rw [takeWhile_all_append (fun c => decide (c ≠ '/')) (a :: as) '/'
      pre.reverse hall (by simp), ← hf, List.reverse_reverse]

theorem baseChars_simple (f : List Char) (h0 : f ≠ []) (h3 : '/' ∉ f) :
    filepath.baseChars f = f := by
  cases hf : f.reverse with
  | nil => simp_all
  | cons a as =>
    have haf : a ∈ f := by
      have : a ∈ f.reverse := by simp [hf]
      simpa using this
    have ha : ¬ a = '/' := fun hc => h3 (hc ▸ haf)
    unfold filepath.baseChars
    rw [if_neg h0]
    have hrev : f.reverse = a :: as := hf
    rw [hrev, dropWhile_cons_of_neg _ a _ (by simpa using ha)]
    rw [if_neg (by simp)]
    have hall : ∀ x ∈ (a :: as), (fun c => decide (c ≠ '/')) x = true := by
      intro x hx
      have hxf : x ∈ f := by
        have : x ∈ f.reverse := by rw [hf]; exact hx
        simpa using this
      simp only [decide_eq_true_eq]
      exact fun hc => h3 (hc ▸ hxf)
    rw [takeWhile_all (fun c => decide (c ≠ '/')) (a :: as) hall, ← hf,
      List.reverse_reverse]

theorem isRooted_of_cons (x : Char) (xs ys : List Char) :
    isRooted (x :: xs) = isRooted (x :: ys) := by
  by_cases h : x = '/'
  · subst h; rfl
  · rw [isRooted_of_head x xs h, isRooted_of_head x ys h]

theorem pushComp_simple (rooted : Bool) (stack : List (List Char)) (c : List Char)
    (h0 : c ≠ []) (h1 : c ≠ ['.']) (h2 : c ≠ ['.', '.']) :
    pushComp rooted stack c = c :: stack := by
  unfold pushComp
  rw [if_neg (by simp [h0, h1]), if_neg h2]

theorem renderComps_of_reverse (rooted : Bool) (stack : List (List Char))
    (c : List Char) (cs : List (List Char)) (h : stack.reverse = c :: cs) :
    renderComps rooted stack = (if rooted then ['/'] else []) ++ joinComps (c :: cs) := by
  unfold renderComps
  rw [h]

theorem baseChars_cleanChars_append (l f : List Char) (hl : l ≠ [])
    (h0 : f ≠ []) (h1 : f ≠ ['.']) (h2 : f ≠ ['.', '.']) (h3 : '/' ∉ f) :
    filepath.baseChars (cleanChars (l ++ '/' :: f)) = f := by
  have hne : l ++ '/' :: f ≠ [] := by simp
  have hroot : isRooted (l ++ '/' :: f) = isRooted l := by
    cases l with
    | nil => exact absurd rfl hl
    | cons x xs => rw [List.cons_append]; exact isRooted_of_cons x (xs ++ '/' :: f) xs
  unfold cleanChars
  rw [if_neg hne, hroot, splitOnChar_append '/' l f, splitOnChar_no_sep '/' f h3,
    List.foldl_append, List.foldl_cons, List.foldl_nil,
    pushComp_simple (isRooted l) _ f h0 h1 h2]
  set T := (splitOnChar '/' l).foldl (pushComp (isRooted l)) [] with hT
  have hTgood : ∀ x ∈ T, x ≠ [] := foldl_pushComp_good (isRooted l) _ [] (by simp)
  cases hrev : T.reverse with
  | nil =>
    have : (f :: T).reverse = [] ++ [f] := by rw [List.reverse_cons, hrev]
    rw [renderComps_of_reverse _ _ f [] (by simpa using this)]
    cases hr : isRooted l with
    | false =>
      show filepath.baseChars ((if false then ['/'] else []) ++ joinComps [f]) = f
      show filepath.baseChars f = f
      exact baseChars_simple f h0 h3
    | true =>
      show filepath.baseChars ((if true then ['/'] else []) ++ joinComps [f]) = f
      show filepath.baseChars ([] ++ '/' :: f) = f
      exact baseChars_append_simple [] f h0 h3
  | cons c cs =>
    have hrev2 : (f :: T).reverse = (c :: cs) ++ [f] := by
      rw [List.reverse_cons, hrev]
    rcases List.exists_cons_of_ne_nil
      (show (c :: cs) ++ [f] ≠ [] by simp) with ⟨c', ⟨cs', hcc⟩⟩
    rw [renderComps_of_reverse _ _ c' cs' (hrev2.trans hcc)]
    rw [← hcc, joinComps_append_last (c :: cs) f (by simp)]
    rw [show (if isRooted l then ['/'] else []) ++ (joinComps (c :: cs) ++ '/' :: f)
        = ((if isRooted l then ['/'] else []) ++ joinComps (c :: cs)) ++ '/' :: f by
      simp]
    exact baseChars_append_simple _ f h0 h3

theorem string_data_ne_nil (s : String) (h : s ≠ "") : s.data ≠ [] := by
  intro hd
  apply h
  cases s with
  | mk data =>
    have hd2 : data = [] := hd
    rw [hd2]

theorem base_join_simple (d f : String) (hd : d ≠ "") (hf : simpleName f) :
    filepath.Base (filepath.Join d f) = f := by
  obtain ⟨h0, h1, h2, h3⟩ := hf
  unfold filepath.Join
  rw [if_neg hd]
  unfold filepath.Clean filepath.Base
  have hdata : (d ++ "/" ++ f).data = d.data ++ '/' :: f.data := by
    simp [String.data_append]
  rw [hdata]
  have := baseChars_cleanChars_append d.data f.data (string_data_ne_nil d hd) h0 h1 h2 h3
  show (⟨filepath.baseChars (cleanChars (d.data ++ '/' :: f.data))⟩ : String) = f
  rw [this]

theorem base_simple (f : String) (hf : simpleName f) : filepath.Base f = f := by
  obtain ⟨h0, _, _, h3⟩ := hf
  unfold filepath.Base
  rw [baseChars_simple f.data h0 h3]

/-! ### Lemmas about the search scan -/

theorem joinedPath_err (name : String) (r : GoStr) (e : GoErr)
    (h : (joinedPath name r).2 = some e) :
    joinedPath name r = ("", some e) := by
  rcases r with ⟨dir, err⟩
  cases err with
  | none => simp [joinedPath] at h
  | some e' => simp [joinedPath] at h ⊢; exact h

theorem findFile_nil (fs : FS) (name : String) :
    findFile fs [] name = ("", some (.fileNotFound name)) := rfl

theorem findFile_cons (fs : FS) (dir : String) (rest : List String) (name : String) :
    findFile fs (dir :: rest) name =
      if dir = "" then findFile fs rest name
      else if fs.statOk dir = false then findFile fs rest name
      else
        match fs.readDir dir with
        | none => findFile fs rest name
        | some entries =>
          match entries.find? (fun f => filepath.Base f == name) with
          | some f => (filepath.Join dir f, none)
          | none => findFile fs rest name := rfl

theorem findFile_cons_hit (fs : FS) (dir : String) (rest : List String)
    (name : String) (es : List String) (f : String)
    (h1 : dir ≠ "") (h2 : fs.statOk dir = true) (h3 : fs.readDir dir = some es)
    (h4 : es.find? (fun g => filepath.Base g == name) = some f) :
    findFile fs (dir :: rest) name = (filepath.Join dir f, none) := by
  rw [findFile_cons, if_neg h1, if_neg (by simp [h2])]
  simp only [h3]
  simp only [h4]

theorem findFile_cons_skip (fs : FS) (dir : String) (rest : List String)
    (name : String) (h : dirMisses fs name dir = true) :
    findFile fs (dir :: rest) name = findFile fs rest name := by
  rw [findFile_cons]
  by_cases h1 : dir = ""
  · rw [if_pos h1]
  · rw [if_neg h1]
    by_cases h2 : fs.statOk dir = false
    · rw [if_pos h2]
    · rw [if_neg h2]
      have hst : fs.statOk dir = true := by
        cases hs : fs.statOk dir
        · exact absurd hs h2
        · rfl
      cases hrd : fs.readDir dir with
      | none => simp only [hrd]
      | some es =>
        simp only [hrd]
        cases hfind : es.find? (fun f => filepath.Base f == name) with
        | none => simp only [hfind]
        | some f =>
          exfalso
          unfold dirMisses at h
          simp only [hrd, hfind] at h
          simp [h1, hst] at h

theorem miss_or_hit (fs : FS) (name dir : String) :
    dirMisses fs name dir = true ∨
    (dir ≠ "" ∧ fs.statOk dir = true ∧ ∃ es f, fs.readDir dir = some es ∧
      es.find? (fun g => filepath.Base g == name) = some f) := by
  by_cases h1 : dir = ""
  · left; simp [dirMisses, h1]
  · cases h2 : fs.statOk dir with
    | false => left; simp [dirMisses, h2]
    | true =>
      cases h3 : fs.readDir dir with
      | none => left; simp [dirMisses, h3]
      | some es =>
        cases h4 : es.find? (fun g => filepath.Base g == name) with
        | none => left; simp [dirMisses, h3, h4]
        | some f => right; exact ⟨h1, rfl, es, f, rfl, h4⟩

theorem findFile_eq_of_all_miss (fs : FS) (dirs : List String) (name : String)
    (h : ∀ d ∈ dirs, dirMisses fs name d = true) :
    findFile fs dirs name = ("", some (.fileNotFound name)) := by
  induction dirs with
  | nil => rfl
  | cons dir rest ih =>
    rw [findFile_cons_skip fs dir rest name (h dir (by simp))]
    exact ih (fun d hd => h d (by simp [hd]))

theorem findFile_ok_of_exists (fs : FS) (dirs : List String) (name : String)
    (h : ∃ d ∈ dirs, dirMisses fs name d = false) :
    (findFile fs dirs name).2 = none := by
  induction dirs with
  | nil => simp at h
  | cons dir rest ih =>
    rcases miss_or_hit fs name dir with hm | ⟨h1, h2, es, f, h3, h4⟩
    · rw [findFile_cons_skip fs dir rest name hm]
      apply ih
      rcases h with ⟨d, hd, hdm⟩
      rcases List.mem_cons.mp hd with rfl | hd2
      · rw [hm] at hdm; cases hdm
      · exact ⟨d, hd2, hdm⟩
    · rw [findFile_cons_hit fs dir rest name es f h1 h2 h3 h4]

theorem findFile_fails_iff (fs : FS) (dirs : List String) (name : String) :
    (findFile fs dirs name).2 ≠ none ↔ ∀ d ∈ dirs, dirMisses fs name d = true := by
  constructor
  · intro h d hd
    by_contra hc
    have hfalse : dirMisses fs name d = false := by
      cases hx : dirMisses fs name d
      · rfl
      · exact absurd hx hc
    exact h (findFile_ok_of_exists fs dirs name ⟨d, hd, hfalse⟩)
  · intro h
    rw [findFile_eq_of_all_miss fs dirs name h]
    simp

theorem findFile_err_shape (fs : FS) (dirs : List String) (name : String) (e : GoErr)
    (h : (findFile fs dirs name).2 = some e) :
    e = GoErr.fileNotFound name ∧ (findFile fs dirs name).1 = "" := by
  induction dirs with
  | nil =>
    rw [findFile_nil] at h ⊢
    simp only [Option.some.injEq] at h
    exact ⟨h.symm, rfl⟩
  | cons dir rest ih =>
    rcases miss_or_hit fs name dir with hm | ⟨h1, h2, es, f, h3, h4⟩
    · rw [findFile_cons_skip fs dir rest name hm] at h ⊢
      exact ih h
    · rw [findFile_cons_hit fs dir rest name es f h1 h2 h3 h4] at h
      simp at h

theorem findFile_ok_shape (fs : FS) (dirs : List String) (name p : String)
    (h : findFile fs dirs name = (p, none)) :
    ∃ d ∈ dirs, d ≠ "" ∧ fs.statOk d = true ∧ ∃ es f, fs.readDir d = some es ∧
      es.find? (fun g => filepath.Base g == name) = some f ∧
      p = filepath.Join d f := by
  induction dirs with
  | nil => rw [findFile_nil] at h; simp at h
  | cons dir rest ih =>
    rcases miss_or_hit fs name dir with hm | ⟨h1, h2, es, f, h3, h4⟩
    · rw [findFile_cons_skip fs dir rest name hm] at h
      rcases ih h with ⟨d, hd, rest'⟩
      exact ⟨d, List.mem_cons.mpr (Or.inr hd), rest'⟩
    · rw [findFile_cons_hit fs dir rest name es f h1 h2 h3 h4] at h
      have hp : p = filepath.Join dir f := by
        have h5 := h
        rw [Prod.mk.injEq] at h5
        exact h5.1.symm
      exact ⟨dir, List.mem_cons.mpr (Or.inl rfl), h1, h2, es, f, h3, h4, hp⟩

theorem FindConfigFile_ok (a : App) (env : Env) (fs : FS) (name p : String)
    (h : a.FindConfigFile env fs name = (p, none)) :
    findFile fs (a.dirsForSearch env (a.ConfigDir env).1 "XDG_CONFIG_DIRS") name
      = (p, none) := by
  simp only [App.FindConfigFile] at h
  cases hq : findFile fs (a.dirsForSearch env (a.ConfigDir env).1 "XDG_CONFIG_DIRS")
      name with
  | mk f err =>
    rw [hq] at h
    cases err with
    | none => simpa using h
    | some e => simp at h

theorem FindConfigFile_err (a : App) (env : Env) (fs : FS) (name p : String)
    (e : GoErr) (h : a.FindConfigFile env fs name = (p, some e)) : p = "" := by
  simp only [App.FindConfigFile] at h
  cases hq : findFile fs (a.dirsForSearch env (a.ConfigDir env).1 "XDG_CONFIG_DIRS")
      name with
  | mk f err =>
    rw [hq] at h
    cases err with
    | none => simp at h
    | some e' =>
      simp at h
      exact h.1.symm

theorem FindDataFile_ok (a : App) (env : Env) (fs : FS) (name p : String)
    (h : a.FindDataFile env fs name = (p, none)) :
    findFile fs (a.dirsForSearch env (a.DataDir env).1 "XDG_DATA_DIRS") name
      = (p, none) := by
  simp only [App.FindDataFile] at h
  cases hq : findFile fs (a.dirsForSearch env (a.DataDir env).1 "XDG_DATA_DIRS")
      name with
  | mk f err =>
    rw [hq] at h
    cases err with
    | none => simpa using h
    | some e => simp at h

theorem FindDataFile_err (a : App) (env : Env) (fs : FS) (name p : String)
    (e : GoErr) (h : a.FindDataFile env fs name = (p, some e)) : p = "" := by
  simp only [App.FindDataFile] at h
  cases hq : findFile fs (a.dirsForSearch env (a.DataDir env).1 "XDG_DATA_DIRS")
      name with
  | mk f err =>
    rw [hq] at h
    cases err with
    | none => simp at h
    | some e' =>
      simp at h
      exact h.1.symm

/-! ### The claims -/

/-- C1: for every application name and every category in {Config, Data, Cache},
the directory accessor follows the precedence chain: a non-empty XDG_<C>_HOME
wins outright (HOME and USERPROFILE are irrelevant, as the environment is
universally quantified); otherwise a non-empty HOME gives HOME joined with the
conventional subpath joined with the name; otherwise a non-empty USERPROFILE
the same; otherwise the accessor fails with EnvironmentNotFound. Under the Go
environment model, set means non-empty. The package-level base resolvers are
modelled from the spec, as their source is not part of `src/`. -/
theorem c1_directory_precedence (c : Category) (a : App) (env : Env) :
    a.dirFor c env =
      if getenv env c.xdgVar ≠ "" then
        (filepath.Join (getenv env c.xdgVar) a.Name, none)
      else if getenv env "HOME" ≠ "" then
        (filepath.Join (filepath.Join (getenv env "HOME") c.sub) a.Name, none)
      else if getenv env "USERPROFILE" ≠ "" then
        (filepath.Join (filepath.Join (getenv env "USERPROFILE") c.sub) a.Name, none)
      else ("", some GoErr.environmentNotFound) := by
  cases c <;>
    simp only [App.dirFor, App.ConfigDir, App.DataDir, App.CacheDir,
      Xdgdir.ConfigDir, Xdgdir.DataDir, Xdgdir.CacheDir, baseDir,
      Category.xdgVar, Category.sub] <;>
    split_ifs <;> simp [joinedPath]

/-- C2: the scan visits the directories in list order; once every earlier
directory has yielded no match (`dirMisses`), the first directory that is
usable and whose listing holds a matching entry ends the search: the result
is that directory joined with the entry selected by `List.find?`, which picks
the first listed entry whose base name is (byte-for-byte, case-sensitively)
equal to the requested name — the rest of the list (`rest`) is arbitrary and
unused, so no further directory is consulted. -/
theorem c2_find_first_match_wins (fs : FS) (pre : List String) (dir : String)
    (rest : List String) (name f : String) (es : List String)
    (hpre : ∀ p ∈ pre, dirMisses fs name p = true)
    (h1 : dir ≠ "") (h2 : fs.statOk dir = true) (h3 : fs.readDir dir = some es)
    (h4 : es.find? (fun g => filepath.Base g == name) = some f) :
    findFile fs (pre ++ dir :: rest) name = (filepath.Join dir f, none)
    ∧ f ∈ es ∧ filepath.Base f = name := by
  refine ⟨?_, List.mem_of_find?_eq_some h4, ?_⟩
  · revert hpre
    induction pre with
    | nil => intro _; exact findFile_cons_hit fs dir rest name es f h1 h2 h3 h4
    | cons q qs ih =>
      intro hpre
      rw [List.cons_append, findFile_cons_skip fs q _ name (hpre q (by simp))]
      exact ih (fun p hp => hpre p (by simp [hp]))
  · have h5 := List.find?_some h4
    simpa using h5

/-- Witness for C2 at a concrete filesystem: the scan skips the empty entry
and a missing directory, then returns the match found in "/a". -/
theorem c2_find_first_match_wins_witness :
    (∀ p ∈ ["", "/missing"], dirMisses fsOne "settings" p = true)
    ∧ (findFile fsOne (["", "/missing"] ++ "/a" :: ["/b"]) "settings" =
        (filepath.Join "/a" "settings", none)
      ∧ "settings" ∈ ["x", "settings"]
      ∧ filepath.Base "settings" = "settings") :=
  ⟨by decide,
   c2_find_first_match_wins fsOne ["", "/missing"] "/a" ["/b"] "settings"
     "settings" ["x", "settings"] (by decide) (by decide) (by decide) (by decide)
     (by decide)⟩

/-- C3 counterexample: the claim says only non-empty segments of the
search-dirs variable contribute entries. With the variable unset, Go
`strings.Split` still yields one (empty) segment, and the code appends its
join with the application name; the claimed list construction drops it. -/
theorem c3_counterexample :
    (NewApp "app").dirsForSearch envEmpty "/p" "XDG_CONFIG_DIRS" ≠
      dirsForSearchClaim (NewApp "app") envEmpty "/p" "XDG_CONFIG_DIRS" := by
  decide

/-- C3 amended: the Search Directory List starts with the primary directory,
followed by, for each segment of the variable split on the path-list
separator — empty segments included — that segment joined with the
application name, in the segments' listed order. -/
theorem c3_search_list_structure (a : App) (env : Env) (first envKey : String) :
    (a.dirsForSearch env first envKey).length =
      (strings.Split (getenv env envKey) pathListSeparator).length + 1
    ∧ (a.dirsForSearch env first envKey).head? = some first
    ∧ ∀ i : Nat, (a.dirsForSearch env first envKey)[i + 1]? =
        ((strings.Split (getenv env envKey) pathListSeparator)[i]?).map
          (fun dir => filepath.Join dir a.Name) := by
  refine ⟨by simp [App.dirsForSearch], rfl, fun i => ?_⟩
  simp [App.dirsForSearch]

/-- C4: the Runtime accessors are total functions into `String` — by their
very type they never fail. A non-empty XDG_RUNTIME_DIR is returned joined
with the name; otherwise the temp directory (an external input) is used; the
runtime file accessor joins the runtime directory with the file name. The
package-level runtime base resolver is modelled from the spec, as its source
is not part of `src/`. -/
theorem c4_runtime_total (a : App) (env : Env) (tmpDir name : String) :
    (getenv env "XDG_RUNTIME_DIR" ≠ "" →
      a.RuntimeDir env tmpDir = filepath.Join (getenv env "XDG_RUNTIME_DIR") a.Name)
    ∧ (getenv env "XDG_RUNTIME_DIR" = "" →
      a.RuntimeDir env tmpDir = filepath.Join tmpDir a.Name)
    ∧ a.RuntimeFile env tmpDir name = filepath.Join (a.RuntimeDir env tmpDir) name := by
  refine ⟨fun h => ?_, fun h => ?_, rfl⟩
  · simp [App.RuntimeDir, Xdgdir.RuntimeDir, h]
  · simp [App.RuntimeDir, Xdgdir.RuntimeDir, h]

/-- Witness for C4 at concrete environments, with and without
XDG_RUNTIME_DIR. -/
theorem c4_runtime_total_witness :
    (getenv envRun "XDG_RUNTIME_DIR" ≠ "" ∧
      (NewApp "app").RuntimeDir envRun "/tmp" =
        filepath.Join (getenv envRun "XDG_RUNTIME_DIR") "app")
    ∧ (getenv envEmpty "XDG_RUNTIME_DIR" = "" ∧
      (NewApp "app").RuntimeDir envEmpty "/tmp" = filepath.Join "/tmp" "app") :=
  ⟨⟨by decide, (c4_runtime_total (NewApp "app") envRun "/tmp" "f").1 (by decide)⟩,
   ⟨by decide, (c4_runtime_total (NewApp "app") envEmpty "/tmp" "f").2.1 (by decide)⟩⟩

/-- C5 counterexample: the claim says the file accessor returns exactly
`d ++ "/" ++ name`. At the empty file name, `filepath.Join` cleans the
trailing separator away: ConfigFile gives "/x/a" while the claimed string is
"/x/a/". -/
theorem c5_counterexample :
    ¬ ((NewApp "a").ConfigFile envXdgConfig "" =
        (((NewApp "a").ConfigDir envXdgConfig).1 ++ "/" ++ "", none)) := by
  decide

/-- C5 amended: whenever the Directory accessor succeeds with `d`, the File
accessor returns `d` joined with the name by the platform join operation
(`filepath.Join`, which equals `d ++ "/" ++ name` for ordinary non-empty
names but cleans degenerate ones), and whenever the Directory accessor
fails, the File accessor propagates that same failure unchanged, with an
empty path. -/
theorem c5_file_accessor_joins (a : App) (c : Category) (env : Env)
    (name d : String) (e : GoErr) :
    (a.dirFor c env = (d, none) →
      a.fileFor c env name = (filepath.Join d name, none))
    ∧ (a.dirFor c env = (d, some e) → a.fileFor c env name = ("", some e)) := by
  constructor <;> intro h <;> cases c <;>
    simp_all [App.dirFor, App.fileFor, App.ConfigFile, App.DataFile, App.CacheFile,
      joinedPath]

/-- Witness for C5 at a concrete environment: the success case joins, the
failure case propagates EnvironmentNotFound with an empty path. -/
theorem c5_file_accessor_joins_witness :
    ((NewApp "a").dirFor Category.config envXdgConfig = ("/x/a", none) ∧
      (NewApp "a").fileFor Category.config envXdgConfig "f" =
        (filepath.Join "/x/a" "f", none))
    ∧ ((NewApp "a").dirFor Category.config envEmpty =
        ("", some GoErr.environmentNotFound) ∧
      (NewApp "a").fileFor Category.config envEmpty "f" =
        ("", some GoErr.environmentNotFound)) :=
  ⟨⟨by decide, (c5_file_accessor_joins (NewApp "a") Category.config envXdgConfig "f"
      "/x/a" GoErr.environmentNotFound).1 (by decide)⟩,
   ⟨by decide, (c5_file_accessor_joins (NewApp "a") Category.config envEmpty "f" ""
      GoErr.environmentNotFound).2 (by decide)⟩⟩

/-- C6: during a scan, an empty entry, a stat failure or a listing failure is
skipped and the scan continues with the remaining directories; and when the
primary Config directory resolution fails, its empty path is still the first
entry of the search list, which the scan then skips, continuing over the
environment-supplied directories. -/
theorem c6_scan_skips_unusable (fs : FS) (dir : String) (rest : List String)
    (name : String) (a : App) (env : Env) (e : GoErr) :
    (dir = "" ∨ fs.statOk dir = false ∨ fs.readDir dir = none →
      findFile fs (dir :: rest) name = findFile fs rest name)
    ∧ ((a.ConfigDir env).2 = some e →
      a.dirsForSearch env (a.ConfigDir env).1 "XDG_CONFIG_DIRS" =
        "" :: (strings.Split (getenv env "XDG_CONFIG_DIRS") pathListSeparator).map
          (fun dir => filepath.Join dir a.Name)
      ∧ findFile fs (a.dirsForSearch env (a.ConfigDir env).1 "XDG_CONFIG_DIRS")
          name =
        findFile fs ((strings.Split (getenv env "XDG_CONFIG_DIRS")
          pathListSeparator).map (fun dir => filepath.Join dir a.Name)) name) := by
  constructor
  · intro h
    apply findFile_cons_skip
    unfold dirMisses
    rcases h with h | h | h
    · simp [h]
    · simp [h]
    · simp [h]
  · intro h
    have h1 : a.ConfigDir env = ("", some e) :=
      joinedPath_err a.Name (Xdgdir.ConfigDir env) e h
    have h2 : a.dirsForSearch env (a.ConfigDir env).1 "XDG_CONFIG_DIRS" =
        "" :: (strings.Split (getenv env "XDG_CONFIG_DIRS") pathListSeparator).map
          (fun dir => filepath.Join dir a.Name) := by
      simp [App.dirsForSearch, h1]
    refine ⟨h2, ?_⟩
    rw [h2]
    exact findFile_cons_skip fs "" _ name (by simp [dirMisses])

/-- Witness for C6: a concrete skip of an empty entry, and a concrete failed
primary resolution whose empty entry is skipped by the scan. -/
theorem c6_scan_skips_unusable_witness :
    findFile fsOne ("" :: ["/a"]) "settings" = findFile fsOne ["/a"] "settings"
    ∧ ((NewApp "app").dirsForSearch envEmpty
        ((NewApp "app").ConfigDir envEmpty).1 "XDG_CONFIG_DIRS" =
        "" :: (strings.Split (getenv envEmpty "XDG_CONFIG_DIRS")
          pathListSeparator).map (fun dir => filepath.Join dir (NewApp "app").Name)
      ∧ findFile fsOne ((NewApp "app").dirsForSearch envEmpty
          ((NewApp "app").ConfigDir envEmpty).1 "XDG_CONFIG_DIRS") "settings" =
        findFile fsOne ((strings.Split (getenv envEmpty "XDG_CONFIG_DIRS")
          pathListSeparator).map (fun dir => filepath.Join dir (NewApp "app").Name))
          "settings") :=
  ⟨(c6_scan_skips_unusable fsOne "" ["/a"] "settings" (NewApp "app") envEmpty
      GoErr.environmentNotFound).1 (Or.inl rfl),
   (c6_scan_skips_unusable fsOne "" ["/a"] "settings" (NewApp "app") envEmpty
      GoErr.environmentNotFound).2 (by decide)⟩

/-- C7: the scan fails exactly when every directory of the list misses — empty
entry, stat failure, listing failure, or no entry with a matching base name —
and then the error is the NotFound error whose message carries the requested
file name as a substring; there is no other failure. -/
theorem c7_not_found_error (fs : FS) (dirs : List String) (name : String) :
    ((findFile fs dirs name).2 ≠ none ↔ ∀ d ∈ dirs, dirMisses fs name d = true)
    ∧ ∀ e, (findFile fs dirs name).2 = some e →
        e = GoErr.fileNotFound name
        ∧ ∃ pre post, GoErr.message e = pre ++ name ++ post := by
  refine ⟨findFile_fails_iff fs dirs name, fun e he => ?_⟩
  obtain ⟨he1, _⟩ := findFile_err_shape fs dirs name e he
  refine ⟨he1, "file ", " is not found", ?_⟩
  rw [he1]
  rfl

/-- Witness for C7: a concrete scan over an empty entry and a missing
directory fails with the NotFound error mentioning the requested name. -/
theorem c7_not_found_error_witness :
    ((findFile fsOne ["", "/nope"] "zzz").2 ≠ none ↔
      ∀ d ∈ ["", "/nope"], dirMisses fsOne "zzz" d = true)
    ∧ (GoErr.fileNotFound "zzz" = GoErr.fileNotFound "zzz"
      ∧ ∃ pre post, GoErr.message (GoErr.fileNotFound "zzz") = pre ++ "zzz" ++ post) :=
  ⟨(c7_not_found_error fsOne ["", "/nope"] "zzz").1,
   (c7_not_found_error fsOne ["", "/nope"] "zzz").2 (GoErr.fileNotFound "zzz")
     (by decide)⟩

/-- C8: every accessor is a deterministic pure function of its arguments and
the current environment/filesystem — the embedding is state-passing with no
mutable state, mirroring the source, so a repeated call returns the identical
result, and two calls under environments that agree on every variable agree
on every accessor. -/
theorem c8_pure_deterministic (a : App) (env env' : Env) (fs : FS)
    (tmpDir name : String) :
    (a.ConfigDir env = a.ConfigDir env ∧ a.DataDir env = a.DataDir env
      ∧ a.CacheDir env = a.CacheDir env
      ∧ a.FindConfigFile env fs name = a.FindConfigFile env fs name
      ∧ a.FindDataFile env fs name = a.FindDataFile env fs name
      ∧ a.RuntimeDir env tmpDir = a.RuntimeDir env tmpDir)
    ∧ ((∀ k, getenv env k = getenv env' k) →
      a.ConfigDir env = a.ConfigDir env'
      ∧ a.ConfigFile env name = a.ConfigFile env' name
      ∧ a.DataDir env = a.DataDir env'
      ∧ a.DataFile env name = a.DataFile env' name
      ∧ a.CacheDir env = a.CacheDir env'
      ∧ a.CacheFile env name = a.CacheFile env' name
      ∧ a.RuntimeDir env tmpDir = a.RuntimeDir env' tmpDir
      ∧ a.RuntimeFile env tmpDir name = a.RuntimeFile env' tmpDir name
      ∧ a.FindConfigFile env fs name = a.FindConfigFile env' fs name
      ∧ a.FindDataFile env fs name = a.FindDataFile env' fs name) := by
  refine ⟨⟨rfl, rfl, rfl, rfl, rfl, rfl⟩, fun h => ?_⟩
  have heq : env = env' := funext (fun k => h k)
  subst heq
  exact ⟨rfl, rfl, rfl, rfl, rfl, rfl, rfl, rfl, rfl, rfl⟩

/-- Witness for C8 at a concrete application, environment and filesystem. -/
theorem c8_pure_deterministic_witness :
    (NewApp "a").ConfigDir envEmpty = (NewApp "a").ConfigDir envEmpty
    ∧ (NewApp "a").ConfigFile envEmpty "f" = (NewApp "a").ConfigFile envEmpty "f"
    ∧ (NewApp "a").DataDir envEmpty = (NewApp "a").DataDir envEmpty
    ∧ (NewApp "a").DataFile envEmpty "f" = (NewApp "a").DataFile envEmpty "f"
    ∧ (NewApp "a").CacheDir envEmpty = (NewApp "a").CacheDir envEmpty
    ∧ (NewApp "a").CacheFile envEmpty "f" = (NewApp "a").CacheFile envEmpty "f"
    ∧ (NewApp "a").RuntimeDir envEmpty "/tmp" = (NewApp "a").RuntimeDir envEmpty "/tmp"
    ∧ (NewApp "a").RuntimeFile envEmpty "/tmp" "f" =
        (NewApp "a").RuntimeFile envEmpty "/tmp" "f"
    ∧ (NewApp "a").FindConfigFile envEmpty fsOne "f" =
        (NewApp "a").FindConfigFile envEmpty fsOne "f"
    ∧ (NewApp "a").FindDataFile envEmpty fsOne "f" =
        (NewApp "a").FindDataFile envEmpty fsOne "f" :=
  (c8_pure_deterministic (NewApp "a") envEmpty envEmpty fsOne "/tmp" "f").2
    (fun _ => rfl)

/-- C9: with a non-empty application name, whenever the search-dirs variable
splits to a list containing an empty segment — which happens in particular
when the variable is unset or empty, since Go Split then yields the single
empty segment — the constructed search list contains the join of the empty
segment with the name: a non-empty entry, equal to the cleaned name, and for
an ordinary name equal to the bare name itself, a relative path (no leading
separator) which the scan therefore stats rather than skips. -/
theorem c9_empty_segment_entry (a : App) (env : Env) (first envKey : String)
    (hname : a.Name ≠ "")
    (hseg : "" ∈ strings.Split (getenv env envKey) pathListSeparator) :
    (getenv env envKey = "" →
      "" ∈ strings.Split (getenv env envKey) pathListSeparator)
    ∧ filepath.Join "" a.Name ∈ a.dirsForSearch env first envKey
    ∧ filepath.Join "" a.Name = filepath.Clean a.Name
    ∧ filepath.Join "" a.Name ≠ ""
    ∧ (simpleName a.Name →
        filepath.Join "" a.Name = a.Name
        ∧ a.Name ∈ a.dirsForSearch env first envKey
        ∧ a.Name.data.head? ≠ some '/') := by
  have hjoin : filepath.Join "" a.Name = filepath.Clean a.Name := by
    unfold filepath.Join
    rw [if_pos rfl, if_neg hname]
  have hmem : filepath.Join "" a.Name ∈ a.dirsForSearch env first envKey := by
    show filepath.Join "" a.Name ∈
      first :: (strings.Split (getenv env envKey) pathListSeparator).map
        (fun dir => filepath.Join dir a.Name)
    exact List.mem_cons.mpr (Or.inr (List.mem_map_of_mem _ hseg))
  refine ⟨fun h => ?_, hmem, hjoin,
    by rw [hjoin]; exact clean_ne_empty a.Name, fun hs => ?_⟩
  · rw [h]; decide
  · have h1 : filepath.Join "" a.Name = a.Name := by
      rw [hjoin]; exact clean_simple a.Name hs
    refine ⟨h1, h1 ▸ hmem, ?_⟩
    obtain ⟨h0, _, _, h3⟩ := hs
    cases hd : a.Name.data with
    | nil => simp
    | cons x xs =>
      have hx : x ∈ a.Name.data := by rw [hd]; simp
      have hxne : x ≠ '/' := fun hc => h3 (hc ▸ hx)
      simpa using hxne

/-- Witness for C9 with XDG_CONFIG_DIRS set to a lone separator. -/
theorem c9_empty_segment_entry_witness :
    (getenv envColon "XDG_CONFIG_DIRS" = "" →
      "" ∈ strings.Split (getenv envColon "XDG_CONFIG_DIRS") pathListSeparator)
    ∧ filepath.Join "" (NewApp "app").Name ∈
        (NewApp "app").dirsForSearch envColon "/p" "XDG_CONFIG_DIRS"
    ∧ filepath.Join "" (NewApp "app").Name = filepath.Clean (NewApp "app").Name
    ∧ filepath.Join "" (NewApp "app").Name ≠ ""
    ∧ (simpleName (NewApp "app").Name →
        filepath.Join "" (NewApp "app").Name = (NewApp "app").Name
        ∧ (NewApp "app").Name ∈
            (NewApp "app").dirsForSearch envColon "/p" "XDG_CONFIG_DIRS"
        ∧ (NewApp "app").Name.data.head? ≠ some '/') :=
  c9_empty_segment_entry (NewApp "app") envColon "/p" "XDG_CONFIG_DIRS"
    (by decide) (by decide)

/-- C10: on success, FindConfigFile / FindDataFile return the join of some
directory of the search list with a listed entry whose base name equals the
requested name; for an ordinary entry (as ReadDir lists: nonempty, no
separator, no dot directories) the returned path's final component is exactly
the requested name. On error, the returned path string is empty. -/
theorem c10_find_result_shape (a : App) (env : Env) (fs : FS) (name : String) :
    (∀ p, a.FindConfigFile env fs name = (p, none) →
      ∃ d ∈ a.dirsForSearch env (a.ConfigDir env).1 "XDG_CONFIG_DIRS",
        ∃ es f, fs.readDir d = some es ∧ f ∈ es ∧ filepath.Base f = name
          ∧ p = filepath.Join d f ∧ (simpleName f → filepath.Base p = name))
    ∧ (∀ p e, a.FindConfigFile env fs name = (p, some e) → p = "")
    ∧ (∀ p, a.FindDataFile env fs name = (p, none) →
      ∃ d ∈ a.dirsForSearch env (a.DataDir env).1 "XDG_DATA_DIRS",
        ∃ es f, fs.readDir d = some es ∧ f ∈ es ∧ filepath.Base f = name
          ∧ p = filepath.Join d f ∧ (simpleName f → filepath.Base p = name))
    ∧ (∀ p e, a.FindDataFile env fs name = (p, some e) → p = "") := by
  refine ⟨fun p h => ?_, fun p e h => FindConfigFile_err a env fs name p e h,
    fun p h => ?_, fun p e h => FindDataFile_err a env fs name p e h⟩
  · have h2 := FindConfigFile_ok a env fs name p h
    obtain ⟨d, hd, hdne, hstat, es, f, hrd, hfind, hp⟩ :=
      findFile_ok_shape fs _ name p h2
    have hf_mem := List.mem_of_find?_eq_some hfind
    have hf_base : filepath.Base f = name := by simpa using List.find?_some hfind
    refine ⟨d, hd, es, f, hrd, hf_mem, hf_base, hp, fun hs => ?_⟩
    rw [hp, base_join_simple d f hdne hs]
    exact (base_simple f hs).symm.trans hf_base
  · have h2 := FindDataFile_ok a env fs name p h
    obtain ⟨d, hd, hdne, hstat, es, f, hrd, hfind, hp⟩ :=
      findFile_ok_shape fs _ name p h2
    have hf_mem := List.mem_of_find?_eq_some hfind
    have hf_base : filepath.Base f = name := by simpa using List.find?_some hfind
    refine ⟨d, hd, es, f, hrd, hf_mem, hf_base, hp, fun hs => ?_⟩
    rw [hp, base_join_simple d f hdne hs]
    exact (base_simple f hs).symm.trans hf_base

/-- Witness for C10: a concrete successful FindConfigFile whose result is the
primary directory joined with the matching entry. -/
theorem c10_find_result_shape_witness :
    ∃ d ∈ (NewApp "app").dirsForSearch envHome
        ((NewApp "app").ConfigDir envHome).1 "XDG_CONFIG_DIRS",
      ∃ es f, fsHome.readDir d = some es ∧ f ∈ es
        ∧ filepath.Base f = "settings"
        ∧ "/h/.config/app/settings" = filepath.Join d f
        ∧ (simpleName f → filepath.Base "/h/.config/app/settings" = "settings") :=
  (c10_find_result_shape (NewApp "app") envHome fsHome "settings").1
    "/h/.config/app/settings" (by decide)

end Xdgdir
